import Mathlib

/-!
# Verification of the `bun-why` dependency explainer

A shallow embedding of `src/index.js`: the lockfile data model, the
hoisting-aware location resolver (`iterateLocations`), the reverse-dependency
index builder (`readLockfile`'s scan), the spec matcher
(`collectLocationsFromSpecs` with `byPackageName` / `byLocation` / `bySpec`),
the Why-tree builder (`makeWhy` / `explain`) and the formatter
(`format` / `format1` / `rangeOf` / `expandLocation`).

Modelling conventions:
* JavaScript strings are Lean `String`s; all character work happens on
  `String.data` (`List Char`).
* JavaScript objects used as maps (`lockfile.packages`, `dependents`,
  dependency specs) are association lists in iteration (insertion) order;
  property lookup is first-match lookup.  The prototype chain of plain JS
  objects is not modelled.
* The recursive tree builder `makeWhy` and the recursive printer `format1`
  have no termination guarantee in the source (see claim C10), so they are
  embedded fuel-indexed, with a distinguished "out of fuel" outcome.
* A thrown JS `TypeError` (destructuring / property access on `undefined`)
  is modelled as an explicit `crash` outcome.
* The external collaborators `semver/functions/satisfies` and
  `validate-npm-package-name` are not part of this repository's sources;
  the core functions are parametric in them (`sat`, `valid`), and concrete
  spec-modelled instances (`satModel`, `validModel`) are provided below for
  concrete evaluation.
-/

/-! ## Character and string helpers (JS string primitives) -/

/-- First index of character `c` in `l`, or `none` (JS `indexOf` on a miss). -/
def idxAux (c : Char) : List Char → Option Nat
  | [] => none
  | x :: xs => if x = c then some 0 else (idxAux c xs).map (· + 1)

/-- JS `s.indexOf('@', 1)`: first occurrence of `'@'` at index ≥ 1.
`none` plays the role of `-1`; the source's `i <= 0` / `i > 0` tests
coincide with `none` / `some` because the search starts at index 1. -/
def idxFrom1 (s : String) : Option Nat :=
  (idxAux '@' (s.data.drop 1)).map (· + 1)

/-- JS `s.slice(0, i)` for `0 ≤ i`. -/
def strTake (s : String) (n : Nat) : String :=
  String.mk (s.data.take n)

/-- JS `s.slice(i)` for `0 ≤ i`. -/
def strDrop (s : String) (n : Nat) : String :=
  String.mk (s.data.drop n)

/-- JS `s.split('/')` (on `String.data`); splitting `""` yields `[""]`. -/
def splitSlash : List Char → List (List Char)
  | [] => [[]]
  | c :: rest =>
    if c = '/' then [] :: splitSlash rest
    else
      match splitSlash rest with
      | s :: ss => (c :: s) :: ss
      | [] => [[c]]

/-- JS `parts.join('/')`. -/
def joinSlash : List (List Char) → List Char
  | [] => []
  | [x] => x
  | x :: xs => x ++ '/' :: joinSlash xs

/-- JS `location.endsWith(suffix)`. -/
def strEndsWith (s suf : String) : Bool :=
  decide (s.data.drop (s.data.length - suf.data.length) = suf.data)
  && decide (suf.data.length ≤ s.data.length)

/-- Does `pat` occur at the head of `l`? -/
def leadMatch : List Char → List Char → Bool
  | [], _ => true
  | _ :: _, [] => false
  | p :: ps, c :: cs => p == c && leadMatch ps cs

/-- Does `pat` occur anywhere in `l`? -/
def listHas (pat : List Char) : List Char → Bool
  | [] => pat.isEmpty
  | c :: rest => leadMatch pat (c :: rest) || listHas pat rest

/-- Scanner for the global regex replacement
`s.replace(/\/node_modules\//g, '/')`: at skip count 0, a `'/'` followed by
`node_modules/` emits the replacement `'/'` and skips the 13 matched
characters (scanning resumes after the consumed match, so matches do not
overlap); any other character is copied.  The skip counter keeps the
recursion structural on the character list. -/
def collapseGo : Nat → List Char → List Char
  | _, [] => []
  | k + 1, _ :: rest => collapseGo k rest
  | 0, c :: rest =>
    if c = '/' then
      if leadMatch "node_modules/".data rest then '/' :: collapseGo 13 rest
      else c :: collapseGo 0 rest
    else c :: collapseGo 0 rest

/-- JS `s.replace(/\/node_modules\//g, '/')`: leftmost, non-overlapping
global replacement. -/
def collapseNM (l : List Char) : List Char :=
  collapseGo 0 l

/-- JS `spec.replace(/\\/g, '/').replace(/\/node_modules\//g, '/')`
(line 123 of `src/index.js`). -/
def normalizeSpec (s : String) : String :=
  String.mk (collapseNM (s.data.map (fun c => if c = '\\' then '/' else c)))

/-- JS `'  '.repeat(depth)`. -/
def indentStr : Nat → String
  | 0 => ""
  | n + 1 => "  " ++ indentStr n

/-- JS `lines.join('\n')`. -/
def joinNl : List String → String
  | [] => ""
  | [s] => s
  | s :: rest => s ++ "\n" ++ joinNl rest

/-! ## Lockfile data model -/

/-- One value of the lockfile's `packages` object: the tuple
`[id, tarball_if_not_default_registry, { dependencies?, optionalDependencies? }]`
(the optional integrity hash is ignored by the core and omitted here).
The two dependency maps are kept in declared (insertion) order. -/
structure PkgInfo where
  id : String
  tarball : String := ""
  dependencies : List (String × String) := []
  optionalDependencies : List (String × String) := []

/-- The lockfile's `packages` object, in insertion order. -/
abbrev Packages := List (String × PkgInfo)

/-- The reverse-dependency index `dependents`: if A depends on B then
B's entry contains A.  Kept as an association list. -/
abbrev Deps := List (String × List String)

/-- JS property lookup `packages[location]` on the packages object. -/
def lookupPkg : Packages → String → Option PkgInfo
  | [], _ => none
  | (k, v) :: rest, key => if k = key then some v else lookupPkg rest key

/-- JS property lookup on the `dependents` map. -/
def lookupDeps : Deps → String → Option (List String)
  | [], _ => none
  | (k, v) :: rest, key => if k = key then some v else lookupDeps rest key

/-- JS `dependents[location]?.map … || []`: the dependents recorded for a
location, defaulting to the empty list. -/
def depsOf (d : Deps) (loc : String) : List String :=
  (lookupDeps d loc).getD []

/-- JS `dependents[maybeLoc] ??= []; dependents[maybeLoc].push(location)`. -/
def addEdge : Deps → String → String → Deps
  | [], key, v => [(key, [v])]
  | (k, vs) :: rest, key, v =>
    if k = key then (k, vs ++ [v]) :: rest else (k, vs) :: addEdge rest key v

/-- Source `makeWhy` lines 48–54: split an id at the first `'@'` from index 1 into
name and version; `none` when there is no such `'@'` (malformed id). -/
def idSplit (id : String) : Option (String × String) :=
  match idxFrom1 id with
  | some i => some (strTake id i, strDrop id (i + 1))
  | none => none

/-! ## Location resolver (`iterateLocations`, lines 183–199) -/

/-- The segment-grouping loop of `iterateLocations`: a part starting with
`'@'` is glued to the following raw part (`parts.push(part + '/' + raw[++i])`);
when no following part exists, JS reads `raw[++i]` as `undefined` and the
pushed string ends in `"/undefined"`. -/
def scopedSegs : List (List Char) → List (List Char)
  | [] => []
  | p :: rest =>
    if p.head? = some '@' then
      match rest with
      | q :: rest2 => (p ++ '/' :: q) :: scopedSegs rest2
      | [] => [p ++ '/' :: "undefined".data]
    else p :: scopedSegs rest

/-- The descending loop `for (let i = parts.length; i > 0; i--)
yield parts.slice(0, i).join('/') + '/' + name`. -/
def iterLocsFrom (parts : List (List Char)) (nm : List Char) : Nat → List (List Char)
  | 0 => []
  | i + 1 => (joinSlash (parts.take (i + 1)) ++ '/' :: nm) :: iterLocsFrom parts nm i

/-- Source `iterateLocations(dir, name)` (lines 183–199), as the list of yielded
candidates in order. -/
def iterateLocations (dir nm : String) : List String :=
  let parts := scopedSegs (splitSlash dir.data)
  (iterLocsFrom parts nm.data parts.length ++ [nm.data]).map String.mk

/-! ## Reverse index builder (`readLockfile`, lines 143–177) -/

/-- The inner candidate loop of `scanDeps` (lines 154–167): walk the resolver
candidates; the first one that is present in the lockfile, has a well-formed
id, and whose version satisfies `range` is returned (`break`); a present
candidate with a malformed id is skipped. -/
def findCandidate (sat : String → String → Bool) (packages : Packages)
    (range : String) : List String → Option String
  | [] => none
  | c :: cs =>
    match lookupPkg packages c with
    | some info =>
      match idSplit info.id with
      | some nv => if sat nv.2 range then some c else findCandidate sat packages range cs
      | none => findCandidate sat packages range cs
    | none => findCandidate sat packages range cs

/-- Source `scanDeps(dependencies)` (lines 151–169): for each declared
`(depName, range)` in order, record at most one reverse edge. -/
def scanDeps (sat : String → String → Bool) (packages : Packages) (loc : String)
    (decls : List (String × String)) (dep : Deps) : Deps :=
  decls.foldl
    (fun dep pr =>
      match findCandidate sat packages pr.2 (iterateLocations loc pr.1) with
      | some c => addEdge dep c loc
      | none => dep)
    dep

/-- The index-building part of `readLockfile` (lines 148–174): for every
location, scan `dependencies` then `optionalDependencies`. -/
def buildDependents (sat : String → String → Bool) (packages : Packages) : Deps :=
  packages.foldl
    (fun dep pr => scanDeps sat packages pr.1 pr.2.optionalDependencies
      (scanDeps sat packages pr.1 pr.2.dependencies dep))
    []

/-! ## Spec matcher (`collectLocationsFromSpecs`, lines 67–138) -/

/-- JS `Set.prototype.add` on an insertion-ordered set. -/
def setAdd (acc : List String) (x : String) : List String :=
  if acc.contains x then acc else acc ++ [x]

/-- The id-name extraction of `byPackageName` (lines 79–81): note the source
omits the `i > 0` guard here, so a malformed id is sliced with `i = -1`,
i.e. JS `slice(0, -1)` drops the final character. -/
def byNameIdSlice (id : String) : String :=
  match idxFrom1 id with
  | some i => strTake id i
  | none => strTake id (id.data.length - 1)

/-- Source `byPackageName(name)` (lines 72–86). -/
def byPackageName (packages : Packages) (nm : String) (acc : List String) : List String :=
  let acc := if (lookupPkg packages nm).isSome then setAdd acc nm else acc
  packages.foldl
    (fun acc pr =>
      if strEndsWith pr.1 ("/" ++ nm) && byNameIdSlice pr.2.id == nm
      then setAdd acc pr.1 else acc)
    acc

/-- Source `byLocation(location)` (lines 89–93). -/
def byLocation (packages : Packages) (loc : String) (acc : List String) : List String :=
  if (lookupPkg packages loc).isSome then setAdd acc loc else acc

/-- Source `bySpec(name, range)` (lines 99–115). -/
def bySpec (sat : String → String → Bool) (packages : Packages)
    (nm range : String) (acc : List String) : List String :=
  if range = "*" then byPackageName packages nm acc
  else
    packages.foldl
      (fun acc pr =>
        match idxFrom1 pr.2.id with
        | some i =>
          if strTake pr.2.id i = nm && sat (strDrop pr.2.id (i + 1)) range
          then setAdd acc pr.1 else acc
        | none => acc)
      acc

/-- The per-spec dispatch loop of `collectLocationsFromSpecs`
(lines 117–135); an invalid spec throws, aborting the whole call. -/
def collectGo (valid : String → Bool) (sat : String → String → Bool)
    (packages : Packages) : List String → List String → Except String (List String)
  | [], acc => .ok acc
  | spec :: rest, acc =>
    if valid spec then collectGo valid sat packages rest (byPackageName packages spec acc)
    else
      let maybeLoc := normalizeSpec spec
      if (lookupPkg packages maybeLoc).isSome then
        collectGo valid sat packages rest (byLocation packages maybeLoc acc)
      else
        match idxFrom1 spec with
        | some i =>
          let suffix := strDrop spec (i + 1)
          collectGo valid sat packages rest
            (bySpec sat packages (strTake spec i) (if suffix = "" then "*" else suffix) acc)
        | none =>
          .error ("Invalid package spec: " ++ spec ++ ", expected \"name@range\" or \"name\"")

/-- Source `collectLocationsFromSpecs(packages, specs)` (lines 67–138). -/
def collectLocationsFromSpecs (valid : String → Bool) (sat : String → String → Bool)
    (packages : Packages) (specs : List String) : Except String (List String) :=
  collectGo valid sat packages specs []

/-! ## Why-tree builder (`makeWhy` lines 47–65, `explain` lines 35–39)

`makeWhy` recurses through the `dependents` map with no cycle detection, so
it is embedded with a fuel parameter (children run at one unit less fuel);
`MRes.fuelOut` marks fuel exhaustion, `MRes.crash` a thrown `TypeError`
(`packages[location]` undefined).  Note line 61 maps over the dependents
WITHOUT filtering, so an absent (undefined) result of a recursive call stays
inside the `dependents` array; hence the element type `Option Why`. -/

/-- The `Why` record (lines 7–13): `{name, version, location, dependents}`.
An element `none` of `dependents` is a JS `undefined` produced by a
recursive `makeWhy` call on a malformed id (line 61 does not filter). -/
inductive Why where
  | mk (name version location : String) (dependents : List (Option Why))

def Why.name : Why → String
  | .mk n _ _ _ => n

def Why.version : Why → String
  | .mk _ v _ _ => v

def Why.location : Why → String
  | .mk _ _ l _ => l

def Why.dependents : Why → List (Option Why)
  | .mk _ _ _ d => d

/-- Outcome of a `makeWhy` call: fuel exhaustion (embedding artefact),
a thrown `TypeError`, or a JS value (`undefined` for a malformed id). -/
inductive MRes where
  | fuelOut
  | crash
  | val (w : Option Why)

/-- Evaluate the mapped recursive calls of line 61 in order: the first
throw / fuel exhaustion aborts, otherwise collect the (possibly
`undefined`) children. -/
def seqKids : List MRes → Sum MRes (List (Option Why))
  | [] => .inr []
  | .fuelOut :: _ => .inl .fuelOut
  | .crash :: _ => .inl .crash
  | .val w :: rest =>
    match seqKids rest with
    | .inl e => .inl e
    | .inr ws => .inr (w :: ws)

/-- One unfolding of `makeWhy(location, packages, dependents)`
(lines 47–65), parametric in the recursive call `ih`. -/
def makeWhyStep (p : Packages) (d : Deps) (ih : String → MRes) (loc : String) : MRes :=
  match lookupPkg p loc with
  | none => .crash
  | some info =>
    match idSplit info.id with
    | none => .val none
    | some nv =>
      match seqKids ((depsOf d loc).map ih) with
      | .inl e => e
      | .inr ws => .val (some (Why.mk nv.1 nv.2 loc ws))

/-- Fuel-indexed `makeWhy`; defined by `Nat.rec` so that it reduces by
kernel computation. -/
def makeWhyF (fuel : Nat) (p : Packages) (d : Deps) : String → MRes :=
  Nat.rec (motive := fun _ => String → MRes)
    (fun _ => .fuelOut) (fun _ ih => makeWhyStep p d ih) fuel

/-- Outcome of `explain`: a thrown error, fuel exhaustion, or the final
list of Why-trees. -/
inductive ERes where
  | err (msg : String)
  | fuelOut
  | ok (ws : List Why)

/-- Source line 38, `Array.from(entryPoints, location => makeWhy(...)).filter(x => !!x)`
(line 38): build a Why per entry point, dropping `undefined` results at
this top level only. -/
def buildWhys (fuel : Nat) (p : Packages) (d : Deps) : List String → ERes
  | [] => .ok []
  | loc :: rest =>
    match makeWhyF fuel p d loc with
    | .fuelOut => .fuelOut
    | .crash => .err "TypeError"
    | .val none => buildWhys fuel p d rest
    | .val (some w) =>
      match buildWhys fuel p d rest with
      | .ok ws => .ok (w :: ws)
      | e => e

/-- Source `explain(specs)` (lines 35–39): read the lockfile (here: the given
`packages` plus the derived reverse index), collect entry points, build the
trees. -/
def explainF (fuel : Nat) (valid : String → Bool) (sat : String → String → Bool)
    (packages : Packages) (specs : List String) : ERes :=
  match collectLocationsFromSpecs valid sat packages specs with
  | .error e => .err e
  | .ok locs => buildWhys fuel packages (buildDependents sat packages) locs

/-! ## Formatter (`format` lines 206–218, `format1` 232–247,
`rangeOf` 249–262, `expandLocation` 264–275)

The terminal-dimming collaborator `dim` is a no-op without color capability
and is modelled as the identity.  `format1` mutates a line buffer and may
throw (when it meets an `undefined` Why, see C3); it is embedded as a
function returning the pushed lines plus a crash flag.  Recursion is again
fuel-indexed via `Nat.rec`. -/

/-- Source `rangeOf(info, name, version)` (lines 249–262): first declared range on
`name` in `dependencies` then `optionalDependencies` that `version`
satisfies. -/
def findRange (sat : String → String → Bool) (nm ver : String) :
    List (String × String) → Option String
  | [] => none
  | (dn, rg) :: rest =>
    if dn = nm && sat ver rg then some rg else findRange sat nm ver rest

def rangeOfF (sat : String → String → Bool) (info : PkgInfo) (nm ver : String) :
    Option String :=
  match findRange sat nm ver info.dependencies with
  | some r => some r
  | none => findRange sat nm ver info.optionalDependencies

/-- JS `rangeOf(...) || '*'`: `undefined` and the empty string both fall
back to `'*'`. -/
def jsOrStar : Option String → String
  | some s => if s = "" then "*" else s
  | none => "*"

/-- Source `expandLocation(location)` (lines 264–275): each atomic segment prefixed
with `/node_modules/`, scope pairs kept adjacent; a dangling `@scope` reads
`parts[++i]` as `undefined`. -/
def expandParts : List (List Char) → List Char
  | [] => []
  | p :: rest =>
    if p.head? = some '@' then
      match rest with
      | q :: rest2 => "/node_modules/".data ++ p ++ '/' :: q ++ expandParts rest2
      | [] => "/node_modules/".data ++ p ++ '/' :: "undefined".data
    else "/node_modules/".data ++ p ++ expandParts rest

def expandLocation (loc : String) : String :=
  String.mk ((expandParts (splitSlash loc.data)).drop 1)

/-- The child loop of `format1` (lines 242–246), parametric in the recursive
call `ih`: lines pushed so far are kept even when a child throws. -/
def formatKidsStep (ih : Option Why → Nat → Option Why → List String × Bool)
    (parent : Why) (depth : Nat) : List (Option Why) → List String × Bool
  | [] => ([], false)
  | k :: ks =>
    let r := ih k (depth + 1) (some parent)
    if r.2 then r
    else
      let r2 := formatKidsStep ih parent depth ks
      (r.1 ++ r2.1, r2.2)

/-- One unfolding of `format1(out, packages, why, depth, dependency)`
(lines 232–247).  `why? = none` is a JS `undefined` argument: the first
property access (`why.location` / `why.name`) throws before any line is
pushed.  In the `depth && dependency` branch, `packages[why.location]`
being undefined makes `rangeOf` throw, also before pushing. -/
def format1Step (p : Packages) (sat : String → String → Bool)
    (ih : Option Why → Nat → Option Why → List String × Bool)
    (why? : Option Why) (depth : Nat) (dep? : Option Why) : List String × Bool :=
  match why? with
  | none => ([], true)
  | some w =>
    let indent := indentStr depth
    match depth, dep? with
    | _ + 1, some dependency =>
      match lookupPkg p w.location with
      | none => ([], true)
      | some info =>
        let range := jsOrStar (rangeOfF sat info dependency.name dependency.version)
        let l1 := indent ++ dependency.name ++ "@" ++ range ++ " from "
                    ++ w.name ++ "@" ++ w.version
        let l2 := indent ++ expandLocation w.location
        let kids := formatKidsStep ih w depth w.dependents
        (l1 :: l2 :: kids.1, kids.2)
    | _, _ =>
      let l1 := indent ++ w.name ++ "@" ++ w.version
      let l2 := indent ++ expandLocation w.location
      let kids := formatKidsStep ih w depth w.dependents
      ("" :: l1 :: l2 :: kids.1, kids.2)

/-- Fuel-indexed `format1`, reducible by kernel computation. -/
def format1F (fuel : Nat) (p : Packages) (sat : String → String → Bool) :
    Option Why → Nat → Option Why → List String × Bool :=
  Nat.rec (motive := fun _ => Option Why → Nat → Option Why → List String × Bool)
    (fun _ _ _ => ([], true)) (fun _ ih => format1Step p sat ih) fuel

/-- The top-level loop of `format` (lines 213–215). -/
def formatTops (fuel : Nat) (p : Packages) (sat : String → String → Bool) :
    List Why → List String × Bool
  | [] => ([], false)
  | w :: ws =>
    let r := format1F fuel p sat (some w) 0 none
    if r.2 then r
    else
      let r2 := formatTops fuel p sat ws
      (r.1 ++ r2.1, r2.2)

/-- Source `format(result)` (lines 206–218): `''` for an absent or empty result;
otherwise join the pushed lines, dropping the first (blank) one.  `none`
models a thrown `TypeError`. -/
def formatF (fuel : Nat) (p : Packages) (sat : String → String → Bool) :
    Option (List Why) → Option String
  | none => some ""
  | some [] => some ""
  | some rs =>
    let r := formatTops fuel p sat rs
    if r.2 then none else some (joinNl (r.1.drop 1))

/-- Lift an `explain` outcome to a `format` argument (the CLI feeds
`explain`'s list straight into `format`). -/
def explainResultList : ERes → Option (List Why)
  | .ok ws => some ws
  | _ => none

/-! ## Spec-modelled external collaborators -/

/-- Parse a nonempty run of decimal digits. -/
def parseNat (l : List Char) : Option Nat :=
  if l.isEmpty || !l.all (·.isDigit) then none
  else some (l.foldl (fun acc c => acc * 10 + (c.toNat - '0'.toNat)) 0)

/-- Split a character list at every `'.'`. -/
def splitDot : List Char → List (List Char)
  | [] => [[]]
  | c :: rest =>
    if c = '.' then [] :: splitDot rest
    else
      match splitDot rest with
      | s :: ss => (c :: s) :: ss
      | [] => [[c]]

/-- Parse a strict `major.minor.patch` version from characters. -/
def parseVerL (l : List Char) : Option (Nat × Nat × Nat) :=
  match splitDot l with
  | [a, b, c] =>
    match parseNat a, parseNat b, parseNat c with
    | some x, some y, some z => some (x, y, z)
    | _, _, _ => none
  | _ => none

/-- Modelled from the spec: the external range-satisfaction collaborator
`satisfies(version, range) -> bool` (`semver/functions/satisfies`), which is
out of scope of this repository (§1, §6 of the spec treat it as a pure
predicate).  The model covers the fragment the lockfiles in this development
exercise: an unparsable version satisfies nothing; `"*"` accepts every
parsable version; `^x.y.z` accepts same-major versions at least `x.y.z`;
any other parsable range is an exact version. -/
def satModel (ver range : String) : Bool :=
  match parseVerL ver.data with
  | none => false
  | some v =>
    if range = "*" then true
    else
      match range.data with
      | '^' :: rest =>
        match parseVerL rest with
        | some b =>
          decide (v.1 = b.1) &&
          decide (b.2.1 < v.2.1 ∨ (b.2.1 = v.2.1 ∧ b.2.2 ≤ v.2.2))
        | none => false
      | _ =>
        match parseVerL range.data with
        | some b => decide (v = b)
        | none => false

/-- Characters the modelled name validator accepts inside a name part. -/
def isNameChar (c : Char) : Bool :=
  c.isAlphanum || c = '-' || c = '_' || c = '.'

/-- A plain (unscoped) name part: nonempty, made of `isNameChar`s, not
starting with `'.'` or `'_'`. -/
def plainNameOk (l : List Char) : Bool :=
  !l.isEmpty && l.all isNameChar
  && !(l.head? == some '.') && !(l.head? == some '_')

/-- Split at the first `'/'`, if any. -/
def splitFirstSlash : List Char → Option (List Char × List Char)
  | [] => none
  | c :: rest =>
    if c = '/' then some ([], rest)
    else
      match splitFirstSlash rest with
      | some pr => some (c :: pr.1, pr.2)
      | none => none

/-- The character-level body of the modelled name validator. -/
def validChars (l : List Char) : Bool :=
  if l.head? = some '@' then
    match splitFirstSlash (l.drop 1) with
    | some pr => plainNameOk pr.1 && plainNameOk pr.2
    | none => false
  else plainNameOk l && !(l == "node_modules".data) && !(l == "favicon.ico".data)

/-- Modelled from the spec: the external bare-name validity check
`validate(spec).validForOldPackages` (`validate-npm-package-name`), which is
out of scope of this repository (§1, §4.3: "a syntactically valid bare
package name … per standard package-name validity rules").  The model:
length at most 214; either `@scope/name` with both parts plain-valid, or a
plain part that is not a blacklisted name. -/
def validModel (s : String) : Bool :=
  decide (s.data.length ≤ 214) && validChars s.data

/-! ## Specification-side definitions

These follow the WORDS of the specification / claims, to be compared with
the source-derived definitions above. -/

/-- Claim C4, spec §4.2, in the spec's words: the first candidate from the
resolver that exists in the lockfile and whose version satisfies the range
(selected with `List.find?` rather than the source's loop-with-break). -/
def specCandidate (sat : String → String → Bool) (packages : Packages)
    (range : String) (cands : List String) : Option String :=
  cands.find? fun c =>
    match lookupPkg packages c with
    | some info =>
      match idSplit info.id with
      | some nv => sat nv.2 range
      | none => false
    | none => false

/-- Claim C4 index builder in the spec's words: dependencies first, then
optionalDependencies, each in declared order; at most one edge per
declaration, to the first satisfying candidate. -/
def scanDepsSpec (sat : String → String → Bool) (packages : Packages) (loc : String)
    (decls : List (String × String)) (dep : Deps) : Deps :=
  decls.foldl
    (fun dep pr =>
      match specCandidate sat packages pr.2 (iterateLocations loc pr.1) with
      | some c => addEdge dep c loc
      | none => dep)
    dep

def buildIndexSpec (sat : String → String → Bool) (packages : Packages) : Deps :=
  packages.foldl
    (fun dep pr => scanDepsSpec sat packages pr.1 pr.2.optionalDependencies
      (scanDepsSpec sat packages pr.1 pr.2.dependencies dep))
    []

/-- Claim C5 in the claim's words: for each nonempty leading run of the
atomic-segment decomposition, from deepest to shallowest, that run joined by
`'/'` followed by `'/'` and the dependency name; finally the bare name. -/
def candidatesSpec (dir nm : String) : List String :=
  let parts := scopedSegs (splitSlash dir.data)
  ((List.range parts.length).reverse.map
      (fun k => String.mk (joinSlash (parts.take (k + 1)) ++ '/' :: nm.data)))
    ++ [String.mk nm.data]

/-- Last index ≥ 1 of `'@'` in a string, or `none` ("the last `@` that is
not the first character", claim C6 / spec §4.3). -/
def lastAt1 (s : String) : Option Nat :=
  match idxAux '@' s.data.reverse with
  | some j => if s.data.length - 1 - j ≥ 1 then some (s.data.length - 1 - j) else none
  | none => none

/-- Claim C6 in the claim's words: split the query at the LAST `'@'` at
index ≥ 1 into name and range (range defaulting to `'*'` when the suffix is
empty) and match by name+range. -/
def claimC6LastSplitMatch (sat : String → String → Bool) (packages : Packages)
    (spec : String) : Option (List String) :=
  match lastAt1 spec with
  | some i =>
    let suffix := strDrop spec (i + 1)
    some (bySpec sat packages (strTake spec i) (if suffix = "" then "*" else suffix) [])
  | none => none

/-- Claim C2 in the claim's words: the first line printed for a dependent
node `D` of parent `P` at depth > 0 is
`{indent}{D.name}@{range} from {P.name}@{P.version}`, where `range` is the
first range declared on `D.name` in `P`'s dependencies (then
optionalDependencies) that is satisfied by `D`'s version, defaulting to
`'*'`. -/
def claimC2DependentLine (sat : String → String → Bool) (packages : Packages)
    (D P : Why) (depth : Nat) : Option String :=
  match lookupPkg packages P.location with
  | none => none
  | some infoP =>
    some (indentStr depth ++ D.name ++ "@"
      ++ (rangeOfF sat infoP D.name D.version).getD "*"
      ++ " from " ++ P.name ++ "@" ++ P.version)

/-! ## Concrete fixtures -/

/-- The lockfile of claim C1 / spec §8:
`{"foo": ["foo@1.0.0", "", {"dependencies": {"bar": "^1.0.0"}}],
  "foo/bar": ["bar@1.2.0", "", {}]}`. -/
def pkgsC1 : Packages :=
  [("foo", { id := "foo@1.0.0", dependencies := [("bar", "^1.0.0")] }),
   ("foo/bar", { id := "bar@1.2.0" })]

/-- The Why-tree `explain(["bar"])` produces on `pkgsC1`. -/
def barTree : Why :=
  Why.mk "bar" "1.2.0" "foo/bar" [some (Why.mk "foo" "1.0.0" "foo" [])]

/-- The dependent node of `barTree` (the `foo` Why-node). -/
def fooNode : Why := Why.mk "foo" "1.0.0" "foo" []

/-- Claim C3's failing input: `bad` has a malformed id (no `'@'` at
index ≥ 1) and declares a dependency on `good`. -/
def pkgsC3 : Packages :=
  [("good", { id := "good@1.0.0" }),
   ("bad", { id := "bad", dependencies := [("good", "*")] })]

/-- Claim C6's counterexample lockfile: one entry whose location key is
literally `"x@y"`. -/
def pkgsC6 : Packages := [("x@y", { id := "x@1.0.0" })]

/-- Claim C7's counterexample lockfile: a location key literally `"foo@*"`
next to a plain `"foo"`. -/
def pkgsC7 : Packages :=
  [("foo@*", { id := "w@1.0.0" }), ("foo", { id := "foo@1.0.0" })]

/-- Claim C8's counterexample lockfile: `"foo"` is both a location key and
a package name that also occurs nested at `"a/foo"`. -/
def pkgsC8 : Packages :=
  [("foo", { id := "foo@1.0.0" }), ("a/foo", { id := "foo@2.0.0" })]

/-- A lockfile whose derived dependent index is cyclic: `a`'s declared
dependency on `"a"` resolves (hoisting) to `a` itself, so the index maps
`a ↦ [a]`. -/
def pkgsSelf : Packages :=
  [("a", { id := "a@1.0.0", dependencies := [("a", "*")] })]

/-- A trivially acyclic lockfile (no dependencies at all). -/
def pkgsLin : Packages := [("a", { id := "a@1.0.0" })]

/-! ## Basic unfolding lemmas -/

theorem makeWhyF_zero (p : Packages) (d : Deps) (loc : String) :
    makeWhyF 0 p d loc = .fuelOut := rfl

theorem makeWhyF_succ (n : Nat) (p : Packages) (d : Deps) (loc : String) :
    makeWhyF (n + 1) p d loc = makeWhyStep p d (makeWhyF n p d) loc := rfl

theorem format1F_succ (n : Nat) (p : Packages) (sat : String → String → Bool)
    (why? : Option Why) (depth : Nat) (dep? : Option Why) :
    format1F (n + 1) p sat why? depth dep?
      = format1Step p sat (format1F n p sat) why? depth dep? := rfl

/-! ## Claim C9 — empty query round trip -/

/-- C9 (confirmed): `explain([])` returns an empty result without error for
every lockfile and every fuel; `format` of an absent or empty result is the
empty string; composing them, `format(explain([]))` is the empty string. -/
theorem c9_empty_explain_format :
    ∀ (fuel : Nat) (valid : String → Bool) (sat : String → String → Bool)
      (packages : Packages),
      explainF fuel valid sat packages [] = .ok []
      ∧ formatF fuel packages sat none = some ""
      ∧ formatF fuel packages sat (some []) = some ""
      ∧ formatF fuel packages sat
          (explainResultList (explainF fuel valid sat packages [])) = some "" :=
  fun _ _ _ _ => ⟨rfl, rfl, rfl, rfl⟩

/-! ## Claim C1 — end-to-end scenario (corrected) -/

/-- C1, counterexample to the claim as stated: on the C1 lockfile,
`format(explain(["bar"]))` is exactly the string below, and the claimed
indented line `foo@^1.0.0 from foo@1.0.0` occurs nowhere in it (the
formatter prints the depended-upon package's name first, not the
dependent's). -/
theorem c1_claimed_line_absent :
    formatF 9 pkgsC1 satModel
        (explainResultList (explainF 9 validModel satModel pkgsC1 ["bar"]))
      = some "bar@1.2.0\nnode_modules/foo/node_modules/bar\n  bar@^1.0.0 from foo@1.0.0\n  node_modules/foo"
    ∧ listHas "foo@^1.0.0 from foo@1.0.0".data
        "bar@1.2.0\nnode_modules/foo/node_modules/bar\n  bar@^1.0.0 from foo@1.0.0\n  node_modules/foo".data
      = false :=
  ⟨rfl, rfl⟩

/-- C1 as amended: on the C1 lockfile, `explain(["bar"])` produces exactly
one Why-node, at location `foo/bar`, whose dependents list contains the
Why-node for `foo`; `format` renders `bar@1.2.0`, then its expanded path,
then the indented line `bar@^1.0.0 from foo@1.0.0` (the range `^1.0.0`
being `foo`'s declared range on `bar`), then `foo`'s indented path. -/
theorem c1_explain_format_end_to_end :
    ∀ fuel : Nat,
      explainF (fuel + 2) validModel satModel pkgsC1 ["bar"] = .ok [barTree]
      ∧ barTree.location = "foo/bar"
      ∧ some fooNode ∈ barTree.dependents
      ∧ fooNode.location = "foo"
      ∧ formatF (fuel + 2) pkgsC1 satModel
          (explainResultList (explainF (fuel + 2) validModel satModel pkgsC1 ["bar"]))
        = some "bar@1.2.0\nnode_modules/foo/node_modules/bar\n  bar@^1.0.0 from foo@1.0.0\n  node_modules/foo" :=
  fun _ => ⟨rfl, rfl, .head _, rfl, rfl⟩

/-! ## Claim C3 — malformed-id handling (code bug) -/

/-- C3, failing input: on `pkgsC3`, the record at `bad` has a malformed id
and depends on `good`.  `makeWhy` (line 61) maps over the dependents WITHOUT
filtering, so `explain(["good"])` returns a Why-node whose `dependents`
array contains an absent entry (JS `undefined`, here `none`) — contradicting
the claim that absent results are filtered at every recursion level — and
`format` then crashes on that entry (modelled by `none`), so the malformed
record does break formatting of the rest of the graph. -/
theorem c3_absent_dependent_not_filtered :
    ∀ fuel : Nat,
      explainF (fuel + 2) validModel satModel pkgsC3 ["good"]
        = .ok [Why.mk "good" "1.0.0" "good" [none]]
      ∧ formatF (fuel + 2) pkgsC3 satModel
          (explainResultList (explainF (fuel + 2) validModel satModel pkgsC3 ["good"]))
        = none :=
  fun _ => ⟨rfl, rfl⟩

/-! ## Claim C5 — resolver candidate ordering (confirmed) -/

theorem iterLocsFrom_eq_range (parts : List (List Char)) (nm : List Char) :
    ∀ n : Nat, iterLocsFrom parts nm n
      = (List.range n).reverse.map (fun k => joinSlash (parts.take (k + 1)) ++ '/' :: nm)
  | 0 => rfl
  | n + 1 => by
    simp [iterLocsFrom, List.range_succ, iterLocsFrom_eq_range parts nm n]

/-- C5 (confirmed): the resolver yields, in order, each leading run of the
atomic-segment decomposition from deepest to shallowest joined with the
dependency name, and finally the bare name; a `@scope/name` pair is one
atomic segment, as the two examples from the claim check explicitly. -/
theorem c5_candidates_nearest_first :
    (∀ dir nm, iterateLocations dir nm = candidatesSpec dir nm)
    ∧ iterateLocations "a/b/c" "d" = ["a/b/c/d", "a/b/d", "a/d", "d"]
    ∧ iterateLocations "a/@s/b" "d" = ["a/@s/b/d", "a/d", "d"] :=
  ⟨fun dir nm => by
      simp [iterateLocations, candidatesSpec, iterLocsFrom_eq_range,
        List.map_append, List.map_map],
    rfl, rfl⟩

/-! ## Claim C4 — reverse index construction (confirmed) -/

theorem findCandidate_eq_spec (sat : String → String → Bool) (packages : Packages)
    (range : String) :
    ∀ cands : List String,
      findCandidate sat packages range cands = specCandidate sat packages range cands
  | [] => rfl
  | c :: cs => by
    have ih := findCandidate_eq_spec sat packages range cs
    simp only [findCandidate, specCandidate, List.find?]
    cases h1 : lookupPkg packages c with
    | none => simpa [h1, specCandidate] using ih
    | some info =>
      cases h2 : idSplit info.id with
      | none => simpa [h1, h2, specCandidate] using ih
      | some nv =>
        by_cases h3 : sat nv.2 range = true
        · simp [h1, h2, h3]
        · simp only [Bool.not_eq_true] at h3
          simpa [h1, h2, h3, specCandidate] using ih

/-- C4 (confirmed): the index builder scans `dependencies` then
`optionalDependencies` in declared order and, per declaration, appends the
depender to the dependents list of the FIRST resolver candidate that exists
in the lockfile and whose (well-formed) version satisfies the declared
range; no satisfying candidate means no edge and no error.  Formally, the
source's loop-with-break builder coincides with the specification-side
builder phrased with `List.find?`. -/
theorem c4_index_first_match :
    ∀ (sat : String → String → Bool) (packages : Packages),
      buildDependents sat packages = buildIndexSpec sat packages := by
  intro sat packages
  unfold buildDependents buildIndexSpec scanDeps scanDepsSpec
  simp only [findCandidate_eq_spec]

/-! ## Claim C2 — formatter dependent lines (corrected) -/

/-- C2, counterexample to the claim as stated: for the dependent node `D`
(`foo@1.0.0`) of parent `P` (`bar@1.2.0`) at depth 1 on the C1 lockfile,
the first line actually printed is `  bar@^1.0.0 from foo@1.0.0`, while the
claim's formula `{indent}{D.name}@{range} from {P.name}@{P.version}` (range
looked up on `D.name` in `P`'s record) yields `  foo@* from bar@1.2.0`. -/
theorem c2_claimed_line_differs :
    (format1F 1 pkgsC1 satModel (some fooNode) 1 (some barTree)).1.head?
      = some "  bar@^1.0.0 from foo@1.0.0"
    ∧ claimC2DependentLine satModel pkgsC1 fooNode barTree 1
      = some "  foo@* from bar@1.2.0"
    ∧ ("  bar@^1.0.0 from foo@1.0.0" : String) ≠ "  foo@* from bar@1.2.0" :=
  ⟨rfl, rfl, by decide⟩

/-- C2 as amended: in the formatted output, for every dependent node `D` of
parent node `P` at depth > 0 (with `D`'s location present in the lockfile),
the first line printed for `D` is
`{indent}{P.name}@{range} from {D.name}@{D.version}`, where `range` is the
first range declared on `P.name` in `D`'s `dependencies` (then
`optionalDependencies`) that is satisfied by `P`'s version, defaulting to
`*` when none is found (or the declared range is empty), followed by `D`'s
indented expanded path; indentation is two spaces per depth level. -/
theorem c2_dependent_first_lines (fuel : Nat) (p : Packages)
    (sat : String → String → Bool) (D P : Why) (dpred : Nat) (info : PkgInfo)
    (hinfo : lookupPkg p D.location = some info) :
    ∃ tail c,
      format1F (fuel + 1) p sat (some D) (dpred + 1) (some P)
        = ((indentStr (dpred + 1) ++ P.name ++ "@"
              ++ jsOrStar (rangeOfF sat info P.name P.version)
              ++ " from " ++ D.name ++ "@" ++ D.version)
            :: (indentStr (dpred + 1) ++ expandLocation D.location) :: tail, c) := by
  simp only [format1F_succ, format1Step, hinfo]
  exact ⟨_, _, rfl⟩

/-- Witness for `c2_dependent_first_lines` at the C1 instance. -/
theorem c2_dependent_first_lines_witness :
    ∃ tail c,
      format1F 1 pkgsC1 satModel (some fooNode) 1 (some barTree)
        = ("  bar@^1.0.0 from foo@1.0.0" :: "  node_modules/foo" :: tail, c) :=
  c2_dependent_first_lines 0 pkgsC1 satModel fooNode barTree 0
    { id := "foo@1.0.0", dependencies := [("bar", "^1.0.0")] } rfl

/-! ## Claim C8 — explicit-location matching (corrected) -/

/-- C8, counterexample to the claim as stated: the query `"foo"` normalizes
to itself and equals an existing location key of `pkgsC8`, yet the matcher
returns TWO locations, because a syntactically valid bare name is matched
by name (step 1) before the location check (step 2) is ever reached. -/
theorem c8_valid_name_bypasses_location :
    normalizeSpec "foo" = "foo"
    ∧ (lookupPkg pkgsC8 "foo").isSome = true
    ∧ validModel "foo" = true
    ∧ collectLocationsFromSpecs validModel satModel pkgsC8 ["foo"]
      = .ok ["foo", "a/foo"]
    ∧ (["foo", "a/foo"] : List String) ≠ ["foo"] :=
  ⟨rfl, rfl, rfl, rfl, by decide⟩

/-- C8 as amended: for every query string that is NOT a syntactically valid
bare package name and whose normalization (backslashes to slashes,
embedded `node_modules` segments collapsed) equals an existing location key
of the lockfile, the matcher matches by explicit location and returns
exactly that one location and no others. -/
theorem c8_location_match_exact (valid : String → Bool)
    (sat : String → String → Bool) (packages : Packages) (spec : String)
    (hv : valid spec = false)
    (hl : (lookupPkg packages (normalizeSpec spec)).isSome = true) :
    collectLocationsFromSpecs valid sat packages [spec]
      = .ok [normalizeSpec spec] := by
  unfold collectLocationsFromSpecs collectGo
  simp [hv, hl, byLocation, setAdd]
  rfl

/-- Witness for `c8_location_match_exact`: the query
`"a/node_modules/foo"` normalizes to the key `"a/foo"` of `pkgsC8`. -/
theorem c8_location_match_exact_witness :
    collectLocationsFromSpecs validModel satModel pkgsC8 ["a/node_modules/foo"]
      = .ok ["a/foo"] :=
  c8_location_match_exact validModel satModel pkgsC8 "a/node_modules/foo"
    (by decide) rfl

/-! ## Claim C6 — name+range dispatch (corrected) -/

/-- C6, counterexample to the claim as stated: the query `"x@y@"` is
neither a valid bare name nor (after normalization) a location key of
`pkgsC6`.  Splitting at the LAST `'@'` at index ≥ 1 (the claim's rule)
yields `x@y` with empty suffix, hence range `*`, and matches the location
`"x@y"`; the code splits at the FIRST `'@'` at index ≥ 1 (`indexOf('@', 1)`,
line 129), yields name `x` and range `y@`, and matches nothing. -/
theorem c6_last_at_split_differs :
    validModel "x@y@" = false
    ∧ lookupPkg pkgsC6 (normalizeSpec "x@y@") = none
    ∧ collectLocationsFromSpecs validModel satModel pkgsC6 ["x@y@"] = .ok []
    ∧ claimC6LastSplitMatch satModel pkgsC6 "x@y@" = some ["x@y"]
    ∧ some (["x@y"] : List String) ≠ some ([] : List String) :=
  ⟨rfl, rfl, rfl, rfl, by decide⟩

/-- C6 as amended: for every query spec that is neither accepted by the
bare-name validator nor, after normalization, an existing location key: if
the spec has an `'@'` at index ≥ 1, the matcher splits it at the FIRST such
`'@'` into a name and a range (the range defaulting to `*` when the suffix
is empty) and matches by name+range; if it has none, the whole call fails
with the user-facing error naming the expected `name` / `name@range`
syntax. -/
theorem c6_spec_dispatch (valid : String → Bool) (sat : String → String → Bool)
    (packages : Packages) (spec : String)
    (hv : valid spec = false)
    (hl : lookupPkg packages (normalizeSpec spec) = none) :
    (match idxFrom1 spec with
     | some i =>
       collectLocationsFromSpecs valid sat packages [spec]
         = .ok (bySpec sat packages (strTake spec i)
             (if strDrop spec (i + 1) = "" then "*" else strDrop spec (i + 1)) [])
     | none =>
       collectLocationsFromSpecs valid sat packages [spec]
         = .error ("Invalid package spec: " ++ spec
             ++ ", expected \"name@range\" or \"name\"")) := by
  cases h : idxFrom1 spec with
  | some i => simp [collectLocationsFromSpecs, collectGo, hv, hl, h]
  | none => simp [collectLocationsFromSpecs, collectGo, hv, hl, h]

/-- Witness for `c6_spec_dispatch`: the query `"bar@^1.0.0"` on the C1
lockfile dispatches to name+range matching and finds `foo/bar`. -/
theorem c6_spec_dispatch_witness :
    collectLocationsFromSpecs validModel satModel pkgsC1 ["bar@^1.0.0"]
      = .ok ["foo/bar"] :=
  c6_spec_dispatch validModel satModel pkgsC1 "bar@^1.0.0" (by decide) rfl

/-! ## Claim C10 — termination of the Why-tree builder -/

theorem lookupDeps_mem (k : String) (vs : List String) :
    ∀ d : Deps, lookupDeps d k = some vs →
      k ∈ d.map Prod.fst ∧ vs ∈ d.map Prod.snd
  | [], h => by simp [lookupDeps] at h
  | (k2, v2) :: rest, h => by
    by_cases he : k2 = k
    · subst he
      simp [lookupDeps] at h
      simp [h]
    · simp only [lookupDeps, if_neg he] at h
      have := lookupDeps_mem k vs rest h
      simp [this]

theorem seqKids_ne_fuelOut (F : String → MRes) :
    ∀ ls : List String, (∀ x ∈ ls, F x ≠ .fuelOut) →
      seqKids (ls.map F) ≠ .inl .fuelOut
  | [], _ => by simp [seqKids]
  | x :: xs, h => by
    have ih := seqKids_ne_fuelOut F xs (fun y hy => h y (List.mem_cons_of_mem x hy))
    have hx := h x (List.mem_cons_self x xs)
    cases hF : F x with
    | fuelOut => exact absurd hF hx
    | crash => simp [seqKids, hF]
    | val w =>
      simp only [List.map_cons, hF, seqKids]
      cases hs : seqKids (xs.map F) with
      | inl e =>
        cases e with
        | fuelOut => exact absurd hs ih
        | crash => simp
        | val w2 => simp
      | inr ws => simp

theorem seqKids_congr (F G : String → MRes) :
    ∀ ls : List String, (∀ x ∈ ls, F x ≠ .fuelOut → G x = F x) →
      seqKids (ls.map F) ≠ .inl .fuelOut →
      seqKids (ls.map G) = seqKids (ls.map F)
  | [], _, _ => rfl
  | x :: xs, h, hne => by
    cases hF : F x with
    | fuelOut => rw [List.map_cons, hF] at hne; exact absurd rfl hne
    | crash =>
      have hG := h x (List.mem_cons_self x xs) (by rw [hF]; exact nofun)
      rw [hF] at hG
      simp [seqKids, hF, hG]
    | val w =>
      have hG := h x (List.mem_cons_self x xs) (by rw [hF]; exact nofun)
      rw [hF] at hG
      have hne2 : seqKids (xs.map F) ≠ .inl .fuelOut := by
        intro hbad
        rw [List.map_cons, hF] at hne
        simp [seqKids, hbad] at hne
      have ih := seqKids_congr F G xs
        (fun y hy => h y (List.mem_cons_of_mem x hy)) hne2
      simp [seqKids, hF, hG, ih]

theorem makeWhyF_mono (p : Packages) (d : Deps) :
    ∀ f g loc, f ≤ g → makeWhyF f p d loc ≠ .fuelOut →
      makeWhyF g p d loc = makeWhyF f p d loc := by
  intro f
  induction f with
  | zero => intro g loc _ h0; exact absurd (makeWhyF_zero p d loc) h0
  | succ f ih =>
    intro g loc hle hne
    obtain ⟨g2, rfl⟩ : ∃ g2, g = g2 + 1 := ⟨g - 1, by omega⟩
    have hf : f ≤ g2 := by omega
    rw [makeWhyF_succ] at hne
    rw [makeWhyF_succ, makeWhyF_succ]
    cases hlk : lookupPkg p loc with
    | none => simp [makeWhyStep, hlk]
    | some info =>
      cases hid : idSplit info.id with
      | none => simp [makeWhyStep, hlk, hid]
      | some nv =>
        simp only [makeWhyStep, hlk, hid] at hne ⊢
        have hseq : seqKids ((depsOf d loc).map (makeWhyF f p d)) ≠ .inl .fuelOut := by
          intro hbad
          rw [hbad] at hne
          exact hne rfl
        rw [seqKids_congr (makeWhyF f p d) (makeWhyF g2 p d) (depsOf d loc)
          (fun x _ hx => ih g2 x hf hx) hseq]

theorem uniformFuel (p : Packages) (d : Deps) :
    ∀ ls : List String, (∀ x ∈ ls, ∃ f, makeWhyF f p d x ≠ .fuelOut) →
      ∃ F, ∀ x ∈ ls, makeWhyF F p d x ≠ .fuelOut
  | [], _ => ⟨0, by simp⟩
  | x :: xs, h => by
    obtain ⟨f1, h1⟩ := h x (List.mem_cons_self x xs)
    obtain ⟨F, hF⟩ := uniformFuel p d xs (fun y hy => h y (List.mem_cons_of_mem x hy))
    refine ⟨max f1 F, ?_⟩
    intro y hy
    rcases List.mem_cons.mp hy with rfl | hy2
    · rw [makeWhyF_mono p d f1 (max f1 F) y (le_max_left f1 F) h1]; exact h1
    · rw [makeWhyF_mono p d F (max f1 F) y (le_max_right f1 F) (hF y hy2)]
      exact hF y hy2

/-- Acyclicity of the dependent graph gives termination of the Why-tree
builder, via a cardinality measure on the (finite) set of strings reachable
in the dependents map. -/
theorem makeWhy_terminates (p : Packages) (d : Deps)
    (hacyc : ∀ x, ¬ Relation.TransGen (fun a b => a ∈ depsOf d b) x x) :
    ∀ loc, ∃ fuel, makeWhyF fuel p d loc ≠ .fuelOut := by
  classical
  set r : String → String → Prop := fun a b => a ∈ depsOf d b with hr
  set S : Finset String := ((d.map Prod.fst) ++ (d.map Prod.snd).join).toFinset with hS
  have hedge : ∀ a b, r a b → a ∈ S ∧ b ∈ S := by
    intro a b hab
    rw [hr] at hab
    unfold depsOf at hab
    cases hlk : lookupDeps d b with
    | none => rw [hlk] at hab; simp at hab
    | some vs =>
      rw [hlk] at hab
      simp only [Option.getD_some] at hab
      have hmem := lookupDeps_mem b vs d hlk
      constructor
      · rw [hS]
        simp only [List.mem_toFinset, List.mem_append]
        right
        exact List.mem_join.mpr ⟨vs, hmem.2, hab⟩
      · rw [hS]
        simp only [List.mem_toFinset, List.mem_append]
        left
        exact hmem.1
  set μ : String → Nat :=
    fun x => (S.filter (fun y => Relation.ReflTransGen r y x)).card with hμ
  have hdec : ∀ a b, r a b → μ a < μ b := by
    intro a b hab
    rw [hμ]
    apply Finset.card_lt_card
    rw [Finset.ssubset_iff_of_subset]
    · refine ⟨b, ?_, ?_⟩
      · simp only [Finset.mem_filter]
        exact ⟨(hedge a b hab).2, Relation.ReflTransGen.refl⟩
      · simp only [Finset.mem_filter, not_and]
        intro _ hba
        exact absurd (Relation.TransGen.tail' hba hab) (hacyc b)
    · intro x hx
      simp only [Finset.mem_filter] at hx ⊢
      exact ⟨hx.1, Relation.ReflTransGen.tail hx.2 hab⟩
  have main : ∀ N loc, μ loc < N → ∃ fuel, makeWhyF fuel p d loc ≠ .fuelOut := by
    intro N
    induction N with
    | zero => intro loc h; omega
    | succ N ih =>
      intro loc hN
      have hkids : ∀ x ∈ depsOf d loc, ∃ f, makeWhyF f p d x ≠ .fuelOut := by
        intro x hx
        have := hdec x loc (by rw [hr]; exact hx)
        exact ih x (by omega)
      obtain ⟨F, hF⟩ := uniformFuel p d (depsOf d loc) hkids
      refine ⟨F + 1, ?_⟩
      rw [makeWhyF_succ]
      cases hlk : lookupPkg p loc with
      | none => simp [makeWhyStep, hlk]
      | some info =>
        cases hid : idSplit info.id with
        | none => simp [makeWhyStep, hlk, hid]
        | some nv =>
          have hseq := seqKids_ne_fuelOut (makeWhyF F p d) (depsOf d loc) hF
          simp only [makeWhyStep, hlk, hid]
          cases hs : seqKids ((depsOf d loc).map (makeWhyF F p d)) with
          | inl e =>
            cases e with
            | fuelOut => exact absurd hs hseq
            | crash => simp
            | val w => simp
          | inr ws => simp
  intro loc
  exact main (μ loc + 1) loc (by omega)

/-- C10 (confirmed): for every lockfile whose derived dependent index is
acyclic (no location reachable from itself through dependents edges), the
Why-tree builder terminates — some fuel suffices — for every starting
location; and the guarantee holds exactly under that precondition: on
`pkgsSelf`, whose derived index maps `a ↦ [a]`, the builder runs out of
every finite fuel (the recursion has no cycle detection or depth bound). -/
theorem c10_acyclic_terminates :
    (∀ (packages : Packages) (sat : String → String → Bool) (loc : String),
        (∀ x, ¬ Relation.TransGen
            (fun a b => a ∈ depsOf (buildDependents sat packages) b) x x) →
        ∃ fuel, makeWhyF fuel packages (buildDependents sat packages) loc ≠ .fuelOut)
    ∧ (∀ fuel, makeWhyF fuel pkgsSelf (buildDependents satModel pkgsSelf) "a"
        = .fuelOut) := by
  constructor
  · intro packages sat loc h
    exact makeWhy_terminates packages (buildDependents sat packages) h loc
  · intro fuel
    induction fuel with
    | zero => rfl
    | succ n ih =>
      have hstep : makeWhyF (n + 1) pkgsSelf (buildDependents satModel pkgsSelf) "a"
          = (match seqKids [makeWhyF n pkgsSelf (buildDependents satModel pkgsSelf) "a"] with
             | .inl e => e
             | .inr ws => .val (some (Why.mk "a" "1.0.0" "a" ws))) := rfl
      rw [hstep, ih]
      rfl

/-- Witness for `c10_acyclic_terminates` on the dependency-free lockfile
`pkgsLin`, whose derived index is empty and hence acyclic. -/
theorem c10_acyclic_terminates_witness :
    ∃ fuel, makeWhyF fuel pkgsLin (buildDependents satModel pkgsLin) "a"
      ≠ MRes.fuelOut :=
  c10_acyclic_terminates.1 pkgsLin satModel "a" (by
    intro x h
    have hD : buildDependents satModel pkgsLin = [] := rfl
    rw [hD] at h
    cases h with
    | single hr => simp [depsOf, lookupDeps] at hr
    | tail _ hr => simp [depsOf, lookupDeps] at hr)

/-! ## Claim C7 — `name@*` versus bare `name` (corrected) -/

theorem strMk_data (s : String) : String.mk s.data = s := rfl

theorem nameChar_facts (c : Char) (h : isNameChar c = true) :
    c ≠ '@' ∧ c ≠ '\\' ∧ c ≠ '/' ∧ c ≠ '*' := by
  refine ⟨?_, ?_, ?_, ?_⟩ <;> rintro rfl <;> exact absurd h (by decide)

theorem plainAll (l : List Char) (h : plainNameOk l = true) :
    ∀ x ∈ l, isNameChar x = true := by
  simp only [plainNameOk, Bool.and_eq_true] at h
  exact fun x hx => List.all_eq_true.mp h.1.1.2 x hx

theorem splitFirstSlash_eq (l : List Char) :
    ∀ a b, splitFirstSlash l = some (a, b) → l = a ++ '/' :: b ∧ '/' ∉ a := by
  induction l with
  | nil => intro a b h; simp [splitFirstSlash] at h
  | cons c rest ih =>
    intro a b h
    by_cases hc : c = '/'
    · subst hc
      simp only [splitFirstSlash, if_pos rfl, Option.some.injEq, Prod.mk.injEq] at h
      obtain ⟨rfl, rfl⟩ := h
      simp
    · simp only [splitFirstSlash, if_neg hc] at h
      cases hsp : splitFirstSlash rest with
      | none => rw [hsp] at h; simp at h
      | some pr =>
        rw [hsp] at h
        simp only [Option.some.injEq, Prod.mk.injEq] at h
        obtain ⟨rfl, rfl⟩ := h
        obtain ⟨hrest, hnot⟩ := ih pr.1 pr.2 hsp
        constructor
        · rw [hrest]; simp
        · simp only [List.mem_cons]
          rintro (rfl | hmem)
          · exact hc rfl
          · exact hnot hmem

theorem splitFirstSlash_append (b : List Char) :
    ∀ a : List Char, '/' ∉ a → splitFirstSlash (a ++ '/' :: b) = some (a, b)
  | [], _ => by simp [splitFirstSlash]
  | c :: a2, h => by
    have hc : ¬ c = '/' := by
      intro e; exact h (by rw [e]; exact List.mem_cons_self _ _)
    have ih := splitFirstSlash_append b a2 (fun hm => h (List.mem_cons_of_mem c hm))
    show splitFirstSlash (c :: (a2 ++ '/' :: b)) = some (c :: a2, b)
    rw [splitFirstSlash, if_neg hc, ih]

theorem idxAux_append (c : Char) (r : List Char) :
    ∀ l : List Char, (∀ x ∈ l, x ≠ c) → idxAux c (l ++ c :: r) = some l.length
  | [], _ => by simp [idxAux]
  | x :: l2, h => by
    have hx : ¬ x = c := h x (List.mem_cons_self x l2)
    rw [List.cons_append, idxAux, if_neg hx,
      idxAux_append c r l2 (fun y hy => h y (List.mem_cons_of_mem x hy))]
    rfl

theorem mapBackslash_id : ∀ l : List Char, (∀ c ∈ l, c ≠ '\\') →
    l.map (fun c => if c = '\\' then '/' else c) = l
  | [], _ => rfl
  | c :: rest, h => by
    have hc : ¬ c = '\\' := h c (List.mem_cons_self c rest)
    simp only [List.map_cons, if_neg hc,
      mapBackslash_id rest (fun y hy => h y (List.mem_cons_of_mem c hy))]

theorem leadMatch_subset : ∀ pat l : List Char,
    leadMatch pat l = true → ∀ x ∈ pat, x ∈ l
  | [], _, _, x, hx => by simp at hx
  | p :: ps, [], h, x, hx => by simp [leadMatch] at h
  | p :: ps, c :: cs, h, x, hx => by
    simp only [leadMatch, Bool.and_eq_true, beq_iff_eq] at h
    rcases List.mem_cons.mp hx with rfl | hx2
    · rw [h.1]; exact List.mem_cons_self c cs
    · exact List.mem_cons_of_mem c (leadMatch_subset ps cs h.2 x hx2)

theorem collapseGo_id : ∀ l : List Char, l.count '/' ≤ 1 → collapseGo 0 l = l
  | [], _ => rfl
  | c :: rest, h => by
    by_cases hc : c = '/'
    · subst hc
      have hcr : rest.count '/' = 0 := by
        rw [List.count_cons] at h
        simp at h
        omega
      have hlead : leadMatch "node_modules/".data rest = false := by
        cases hl : leadMatch "node_modules/".data rest
        · rfl
        · exfalso
          have hm := leadMatch_subset _ rest hl '/' (by decide)
          rw [List.count_eq_zero] at hcr
          exact hcr hm
      rw [collapseGo, if_pos rfl, if_neg (by simp [hlead]),
        collapseGo_id rest (by omega)]
    · rw [collapseGo, if_neg hc,
        collapseGo_id rest (by rw [List.count_cons] at h; omega)]

theorem collapseNM_id (l : List Char) (h : l.count '/' ≤ 1) : collapseNM l = l :=
  collapseGo_id l h

theorem normalizeSpec_id (s : String) (h1 : ∀ c ∈ s.data, c ≠ '\\')
    (h2 : s.data.count '/' ≤ 1) : normalizeSpec s = s := by
  unfold normalizeSpec
  rw [mapBackslash_id s.data h1, collapseNM_id s.data h2, strMk_data]

theorem plain_append_at_star (l : List Char) :
    plainNameOk (l ++ ['@', '*']) = false := by
  have hall : (l ++ ['@', '*']).all isNameChar = false := by
    rw [List.all_append]
    have h2 : (['@', '*'] : List Char).all isNameChar = false := by decide
    rw [h2, Bool.and_false]
  simp [plainNameOk, hall]

theorem head_at_shape (l : List Char) (h : l.head? = some '@') : ∃ t, l = '@' :: t := by
  cases l with
  | nil => simp at h
  | cons a b =>
    simp only [List.head?_cons, Option.some.injEq] at h
    exact ⟨b, by rw [h]⟩

/-- Structural consequences of passing the modelled name validator: the name
is nonempty, has no `'@'` after its first character, no backslash anywhere,
and at most one `'/'`. -/
theorem valid_shape (n : String) (h : validModel n = true) :
    n.data ≠ []
    ∧ (∀ c ∈ n.data.drop 1, c ≠ '@')
    ∧ (∀ c ∈ n.data, c ≠ '\\')
    ∧ n.data.count '/' ≤ 1 := by
  have hvc : validChars n.data = true := by
    simp only [validModel, Bool.and_eq_true] at h
    exact h.2
  by_cases hhead : n.data.head? = some '@'
  · rw [validChars, if_pos hhead] at hvc
    cases hsp : splitFirstSlash (n.data.drop 1) with
    | none => rw [hsp] at hvc; simp at hvc
    | some pr =>
      rw [hsp] at hvc
      simp only [Bool.and_eq_true] at hvc
      obtain ⟨hsc, hnm⟩ := hvc
      obtain ⟨hrest, hnosl⟩ := splitFirstSlash_eq (n.data.drop 1) pr.1 pr.2 hsp
      obtain ⟨t, hdata⟩ := head_at_shape n.data hhead
      have hdrop : n.data.drop 1 = t := by rw [hdata]; rfl
      have ht : t = pr.1 ++ '/' :: pr.2 := by rw [← hdrop]; exact hrest
      have hmem : ∀ c ∈ t, isNameChar c = true ∨ c = '/' := by
        intro c hc
        rw [ht] at hc
        rcases List.mem_append.mp hc with h1 | h1
        · exact Or.inl (plainAll pr.1 hsc c h1)
        · rcases List.mem_cons.mp h1 with rfl | h2
          · exact Or.inr rfl
          · exact Or.inl (plainAll pr.2 hnm c h2)
      refine ⟨by rw [hdata]; simp, ?_, ?_, ?_⟩
      · intro c hc
        rw [hdrop] at hc
        rcases hmem c hc with h1 | rfl
        · exact (nameChar_facts c h1).1
        · decide
      · intro c hc
        rw [hdata] at hc
        rcases List.mem_cons.mp hc with rfl | h1
        · decide
        · rcases hmem c h1 with h2 | rfl
          · exact (nameChar_facts c h2).2.1
          · decide
      · rw [hdata, ht]
        have hc1 : pr.1.count '/' = 0 := List.count_eq_zero.mpr hnosl
        have hc2 : pr.2.count '/' = 0 := List.count_eq_zero.mpr (fun hm =>
          absurd (plainAll pr.2 hnm '/' hm) (by decide))
        simp [List.count_cons, List.count_append, hc1, hc2]
  · rw [validChars, if_neg hhead] at hvc
    simp only [Bool.and_eq_true] at hvc
    have hplain : plainNameOk n.data = true := hvc.1.1
    have hall := plainAll n.data hplain
    have hnonempty : n.data ≠ [] := by
      intro hnil
      rw [hnil] at hplain
      simp [plainNameOk] at hplain
    refine ⟨hnonempty, ?_, ?_, ?_⟩
    · intro c hc
      exact (nameChar_facts c (hall c (List.mem_of_mem_drop hc))).1
    · intro c hc
      exact (nameChar_facts c (hall c hc)).2.1
    · have hz : n.data.count '/' = 0 := List.count_eq_zero.mpr (fun hm =>
        absurd (hall '/' hm) (by decide))
      omega

/-- A name accepted by the modelled validator stops being accepted once
`@*` is appended (the appended `'@'` and `'*'` are not name characters). -/
theorem valid_append_star (n : String) (h : validModel n = true) :
    validModel (n ++ "@*") = false := by
  have hdata : (n ++ "@*").data = n.data ++ ['@', '*'] := rfl
  have hvc1 : validChars n.data = true := by
    simp only [validModel, Bool.and_eq_true] at h
    exact h.2
  have hvc : validChars (n.data ++ ['@', '*']) = false := by
    by_cases hhead : n.data.head? = some '@'
    · rw [validChars, if_pos hhead] at hvc1
      cases hsp : splitFirstSlash (n.data.drop 1) with
      | none => rw [hsp] at hvc1; simp at hvc1
      | some pr =>
        obtain ⟨hrest, hnosl⟩ := splitFirstSlash_eq (n.data.drop 1) pr.1 pr.2 hsp
        obtain ⟨t, hdata2⟩ := head_at_shape n.data hhead
        have hdrop : n.data.drop 1 = t := by rw [hdata2]; rfl
        have ht : t = pr.1 ++ '/' :: pr.2 := by rw [← hdrop]; exact hrest
        have hhead2 : (n.data ++ ['@', '*']).head? = some '@' := by
          rw [hdata2]; rfl
        rw [validChars, if_pos hhead2]
        have hdrop2 : (n.data ++ ['@', '*']).drop 1
            = pr.1 ++ '/' :: (pr.2 ++ ['@', '*']) := by
          rw [hdata2, ht]; simp
        rw [hdrop2, splitFirstSlash_append (pr.2 ++ ['@', '*']) pr.1 hnosl]
        simp [plain_append_at_star]
    · rw [validChars, if_neg hhead] at hvc1
      simp only [Bool.and_eq_true] at hvc1
      have hplain : plainNameOk n.data = true := hvc1.1.1
      have hall := plainAll n.data hplain
      have hhead2 : ¬ (n.data ++ ['@', '*']).head? = some '@' := by
        cases hd : n.data with
        | nil =>
          rw [hd] at hplain
          simp [plainNameOk] at hplain
        | cons a b =>
          simp only [List.cons_append, List.head?_cons, Option.some.injEq]
          intro he
          have ha := hall a (by rw [hd]; exact List.mem_cons_self a b)
          rw [he] at ha
          exact absurd ha (by decide)
      rw [validChars, if_neg hhead2]
      simp [plain_append_at_star]
  simp [validModel, hdata, hvc]

/-- C7, counterexample to the claim as stated: `foo` is a valid bare name,
but on `pkgsC7` — whose packages object happens to contain a location key
literally equal to `"foo@*"` — the query `foo@*` is matched by explicit
location (step 2 fires before name+range parsing) and returns `["foo@*"]`,
while the bare query `foo` returns `["foo"]`. -/
theorem c7_location_key_shadowing :
    validModel "foo" = true
    ∧ collectLocationsFromSpecs validModel satModel pkgsC7 ["foo@*"]
      = .ok ["foo@*"]
    ∧ collectLocationsFromSpecs validModel satModel pkgsC7 ["foo"]
      = .ok ["foo"]
    ∧ (["foo@*"] : List String) ≠ ["foo"] :=
  ⟨rfl, rfl, rfl, by decide⟩

/-- C7 as amended: for every lockfile and every name `n` accepted by the
(spec-modelled) bare-name validator, PROVIDED the string `n@*` is not itself
a location key of the lockfile, the query `n@*` matches exactly the same
locations as the bare query `n` (both reduce to by-name matching, since the
suffix `*` selects the wildcard branch of `bySpec`). -/
theorem c7_star_equals_bare (packages : Packages) (sat : String → String → Bool)
    (n : String) (hv : validModel n = true)
    (hk : lookupPkg packages (n ++ "@*") = none) :
    collectLocationsFromSpecs validModel sat packages [n ++ "@*"]
      = collectLocationsFromSpecs validModel sat packages [n] := by
  obtain ⟨hne, h1, hbs, hcnt⟩ := valid_shape n hv
  have hvf := valid_append_star n hv
  have hsdata : (n ++ "@*").data = n.data ++ ['@', '*'] := rfl
  have hbs2 : ∀ c ∈ (n ++ "@*").data, c ≠ '\\' := by
    rw [hsdata]
    intro c hc
    rcases List.mem_append.mp hc with hmem | hmem
    · exact hbs c hmem
    · rcases List.mem_cons.mp hmem with rfl | hmem2
      · decide
      · rcases List.mem_cons.mp hmem2 with rfl | hmem3
        · decide
        · simp at hmem3
  have hcnt2 : (n ++ "@*").data.count '/' ≤ 1 := by
    rw [hsdata, List.count_append]
    have hz : (['@', '*'] : List Char).count '/' = 0 := by decide
    omega
  have hnorm : normalizeSpec (n ++ "@*") = n ++ "@*" := normalizeSpec_id _ hbs2 hcnt2
  obtain ⟨c0, t, hdd⟩ : ∃ c0 t, n.data = c0 :: t := by
    cases hd : n.data with
    | nil => exact absurd hd hne
    | cons a b => exact ⟨a, b, rfl⟩
  have hdrop1 : n.data.drop 1 = t := by rw [hdd]; rfl
  have hlen0 : n.length = t.length + 1 := by
    have hd0 : n.length = n.data.length := rfl
    rw [hd0, hdd]
    rfl
  have hlen1 : n.length = n.data.length := rfl
  have hidx : idxFrom1 (n ++ "@*") = some n.length := by
    unfold idxFrom1
    rw [hsdata, hdd]
    have hstep : ((c0 :: t) ++ ['@', '*']).drop 1 = t ++ '@' :: ['*'] := rfl
    rw [hstep, idxAux_append '@' ['*'] t (fun x hx => h1 x (by rw [hdrop1]; exact hx))]
    simp [hlen0]
  have htake : strTake (n ++ "@*") n.length = n := by
    show String.mk ((n ++ "@*").data.take n.length) = n
    rw [hsdata, hlen1, List.take_left, strMk_data]
  have hdrop2 : strDrop (n ++ "@*") (n.length + 1) = "*" := by
    show String.mk ((n ++ "@*").data.drop (n.length + 1)) = "*"
    have hsplit : n.data ++ ['@', '*'] = (n.data ++ ['@']) ++ ['*'] := by simp
    have hlen2 : n.data.length + 1 = (n.data ++ ['@']).length := by simp
    rw [hsdata, hlen1, hsplit, hlen2, List.drop_left]
  have hLHS : collectLocationsFromSpecs validModel sat packages [n ++ "@*"]
      = .ok (byPackageName packages n []) := by
    simp [collectLocationsFromSpecs, collectGo, hvf, hnorm, hk, hidx, htake, hdrop2, bySpec]
  have hRHS : collectLocationsFromSpecs validModel sat packages [n]
      = .ok (byPackageName packages n []) := by
    simp [collectLocationsFromSpecs, collectGo, hv]
  rw [hLHS, hRHS]

/-- Witness for `c7_star_equals_bare` on the C1 lockfile with `n = bar`. -/
theorem c7_star_equals_bare_witness :
    collectLocationsFromSpecs validModel satModel pkgsC1 ["bar" ++ "@*"]
      = collectLocationsFromSpecs validModel satModel pkgsC1 ["bar"] :=
  c7_star_equals_bare pkgsC1 satModel "bar" (by decide) rfl
